import Mathlib

/-!
Shallow embedding of the `oxidized-mdf` MDF-file reader (Rust) in Lean 4.

Conventions of the embedding:
* Rust byte slices (`&[u8]`) become `List Nat`, each element the value of one byte.
* Rust `Result<T, &'static str>` becomes `POutcome T` with constructor `.err`;
  Rust panics (`unwrap` on a failed read, `todo!`, slice indexing out of bounds,
  arithmetic overflow aborting the program) become constructor `.panic`.
* Machine-integer arithmetic is modelled on `Nat`/`Int` with explicit wrap-around
  (`% 2^16` for `u16`, `% 2^64` for `usize`) where Rust release-mode semantics wraps.
* Little-endian reads are modelled by `leNat`/`readSigned`.
-/

/-- Outcome of running embedded Rust code: a normal result, a recoverable
`Err` value, or a panic (an abort that no caller can observe as a value). -/
inductive POutcome (α : Type) : Type where
  | ok (a : α)
  | err (msg : String)
  | panic (msg : String)
deriving DecidableEq, Repr

namespace POutcome

def map {α β : Type} (f : α → β) : POutcome α → POutcome β
  | .ok a => .ok (f a)
  | .err m => .err m
  | .panic m => .panic m

def bind {α β : Type} : POutcome α → (α → POutcome β) → POutcome β
  | .ok a, f => f a
  | .err m, _ => .err m
  | .panic m, _ => .panic m

end POutcome

/-- Value of a little-endian byte list: `leNat [b0, b1, …] = b0 + 256·b1 + …`. -/
def leNat : List Nat → Nat
  | [] => 0
  | b :: rest => b + 256 * leNat rest

/-- Two's-complement reinterpretation of an unsigned `w`-bit value. -/
def toSigned (w : Nat) (u : Nat) : Int :=
  if u < 2 ^ (w - 1) then (u : Int) else (u : Int) - 2 ^ w

/-- Little-endian signed read of the first `n` bytes (models byteorder's
`read_i16`/`read_i32`/`read_i64`/`read_i128` on a slice that holds ≥ n bytes). -/
def readSigned (n : Nat) (l : List Nat) : Int :=
  toSigned (8 * n) (leNat (l.take n))

/-- Little-endian unsigned read of the first `n` bytes. -/
def readUnsigned (n : Nat) (l : List Nat) : Nat :=
  leNat (l.take n)

/-- Models byteorder's `read_u16::<LittleEndian>` on a mutable slice: returns the
value and the remaining bytes, or `none` (the Rust call returns `Err`, which every
call site `unwrap`s into a panic) when fewer than 2 bytes remain. -/
def readU16 : List Nat → Option (Nat × List Nat)
  | b0 :: b1 :: rest => some (b0 + 256 * b1, rest)
  | _ => none

/-- `usize` wrap-around subtraction `a - b` (Rust release semantics). -/
def usizeWrapSub (a b : Nat) : Nat :=
  (a % 2 ^ 64 + (2 ^ 64 - b % 2 ^ 64)) % 2 ^ 64

/-- `i16` value reinterpreted as `usize` (`v as usize` in Rust sign-extends
and wraps to 64 bits). -/
def i16AsUsize (u : Nat) : Nat :=
  if u % 2 ^ 16 < 2 ^ 15 then u % 2 ^ 16 else 2 ^ 64 - (2 ^ 16 - u % 2 ^ 16)

/-- `src/pages.rs`: `enum RecordType`. -/
inductive RecordType : Type where
  | Primary
  | Forwarded
  | ForwardingStub
  | Index
  | BlobFragment
  | GhostIndex
  | GhostData
  | GhostVersion
deriving DecidableEq, Repr

/-- Decode of bits 1–3 of record status byte 0 (`src/pages.rs`, `Record::try_from`).
The argument is already masked to 0–7, so the Rust `panic!` arm is unreachable;
the `.Primary` fallback here is dead code kept only to make the match total. -/
def decodeRecordType : Nat → RecordType
  | 0 => .Primary
  | 1 => .Forwarded
  | 2 => .ForwardingStub
  | 3 => .Index
  | 4 => .BlobFragment
  | 5 => .GhostIndex
  | 6 => .GhostData
  | 7 => .GhostVersion
  | _ => .Primary

/-- `src/pages.rs`: `struct NullBitmap` — an index cursor over the bit view
(LSB0 order) of the null-bitmap bytes. -/
structure NullBitmap : Type where
  index : Nat
  null_bitmap : List Bool
deriving DecidableEq, Repr

/-- `NullBitmap::new`: `BitSlice::<Lsb0, u8>::from_slice` views each byte as its
8 bits, least-significant first. -/
def NullBitmap.new (bytes : List Nat) : NullBitmap :=
  ⟨0, bytes.flatMap fun b => (List.range 8).map fun i => b / 2 ^ i % 2 = 1⟩

/-- `impl Iterator for NullBitmap`: `next`. -/
def NullBitmap.next (nb : NullBitmap) : Option Bool × NullBitmap :=
  if nb.index < nb.null_bitmap.length then
    (some (nb.null_bitmap.getD nb.index false), ⟨nb.index + 1, nb.null_bitmap⟩)
  else
    (none, nb)

/-- `src/pages.rs`: `struct VariableColumns`. -/
structure VariableColumns : Type where
  variable_columns : List Nat
  variable_length_column_lengths : List Nat
  read_bytes_index : Option Nat
deriving DecidableEq, Repr

/-- `VariableColumns::new`: reads the u16 count of variable-length columns, splits
off the end-offset table (2 bytes per column). `none` models the panics of the
`read_u16(...).unwrap()` and of `split_at` past the end of the slice. -/
def VariableColumns.new (read_bytes : Nat) (bytes : List Nat) : Option VariableColumns :=
  match readU16 bytes with
  | none => none
  | some (n, rest) =>
    if 2 * n ≤ rest.length then
      some ⟨rest.drop (2 * n), rest.take (2 * n), some (read_bytes + 2 + 2 * n)⟩
    else
      none

/-- `impl Iterator for VariableColumns`: `next`. The end offset is read as `i16`
and cast `as usize`; the length subtraction wraps (release semantics) and the
slice is clipped to the remaining buffer with `min`. -/
def VariableColumns.next (vc : VariableColumns) : Option (List Nat) × VariableColumns :=
  match vc.read_bytes_index with
  | none => (none, vc)
  | some read_bytes_index =>
    if vc.variable_length_column_lengths.length < 2 then
      (none, { vc with read_bytes_index := none })
    else
      let u := vc.variable_length_column_lengths.getD 0 0 +
        256 * vc.variable_length_column_lengths.getD 1 0
      let end_index_of_readable_bytes := i16AsUsize u
      let length := usizeWrapSub end_index_of_readable_bytes read_bytes_index
      let m := min length vc.variable_columns.length
      (some (vc.variable_columns.take m),
        { variable_columns := vc.variable_columns.drop m
          variable_length_column_lengths := vc.variable_length_column_lengths.drop 2
          read_bytes_index := some end_index_of_readable_bytes })

/-- `src/pages.rs`: `struct Record`. -/
structure Record : Type where
  fixed_bytes : List Nat
  type : RecordType
  null_bitmap : Option NullBitmap
  variable_columns : Option VariableColumns
deriving DecidableEq, Repr

/-- Helper for the tail of `Record::try_from`: attach the variable-column view
when status bit 5 is set. -/
def Record.finishTryFrom (has_var : Bool) (read_bytes : Nat) (bytes : List Nat)
    (fixed : List Nat) (t : RecordType) (nb : Option NullBitmap) : POutcome Record :=
  if has_var then
    match VariableColumns.new read_bytes bytes with
    | some vc => .ok ⟨fixed, t, nb, some vc⟩
    | none => .panic "read past end of record"
  else
    .ok ⟨fixed, t, nb, none⟩

/-- `src/pages.rs`: `impl TryFrom<&[u8]> for Record` (`Record::try_from`).
The u16 `fixed_length_total` field has 4 subtracted with u16 wrap-around; a
resulting fixed-length size of 0 hits the Rust `todo!`, which panics. -/
def Record.tryFrom (bytes : List Nat) : POutcome Record :=
  match bytes with
  | b0 :: _ :: rest =>
    let t := decodeRecordType (b0 / 2 % 8)
    let has_null_bitmap := b0 / 16 % 2 = 1
    let has_variable_length_columns := b0 / 32 % 2 = 1
    match readU16 rest with
    | none => .panic "read past end of record"
    | some (field, rest2) =>
      let fixed_length_size := (field % 2 ^ 16 + (2 ^ 16 - 4)) % 2 ^ 16
      if fixed_length_size = 0 then
        .panic "No fixed length data! Record cannot be handled yet"
      else if fixed_length_size ≤ rest2.length then
        let fixed_bytes := rest2.take fixed_length_size
        match readU16 (rest2.drop fixed_length_size) with
        | none => .panic "read past end of record"
        | some (number_of_columns, rest3) =>
          let read_bytes := 4 + fixed_length_size + 2
          if has_null_bitmap then
            let null_bitmap_length := (number_of_columns + 7) / 8
            if null_bitmap_length ≤ rest3.length then
              Record.finishTryFrom has_variable_length_columns
                (read_bytes + null_bitmap_length) (rest3.drop null_bitmap_length)
                fixed_bytes t (some (NullBitmap.new (rest3.take null_bitmap_length)))
            else
              .panic "read past end of record"
          else
            Record.finishTryFrom has_variable_length_columns read_bytes rest3
              fixed_bytes t none
      else
        .panic "read past end of record"
  | _ => .panic "read past end of record"

/-- `Record::pop_next_null_bit`. -/
def Record.popNextNullBit (r : Record) : Bool × Record :=
  match r.null_bitmap with
  | some nb =>
    match nb.next with
    | (some b, nb1) => (b, { r with null_bitmap := some nb1 })
    | (none, nb1) => (false, { r with null_bitmap := some nb1 })
  | none => (false, r)

/-- `Record::parse_bytes_opt`: pop the next null bit; if set, the value is null;
otherwise split `len` bytes off the fixed-length area (`split_at` panics when
fewer than `len` bytes remain). -/
def Record.parse_bytes_opt (r : Record) (len : Nat) :
    POutcome (Option (List Nat) × Record) :=
  if (r.popNextNullBit).1 then
    .ok (none, (r.popNextNullBit).2)
  else if len ≤ (r.popNextNullBit).2.fixed_bytes.length then
    .ok (some ((r.popNextNullBit).2.fixed_bytes.take len),
      { (r.popNextNullBit).2 with fixed_bytes := (r.popNextNullBit).2.fixed_bytes.drop len })
  else
    .panic "split_at past end of fixed bytes"

/-- `Record::parse_bytes`. -/
def Record.parse_bytes (r : Record) (len : Nat) : POutcome (List Nat × Record) :=
  (r.parse_bytes_opt len).bind fun p =>
    match p.1 with
    | some bytes => .ok (bytes, p.2)
    | none => .err "Requested none null bytes but value is null"

/-- `Record::parse_i8`. -/
def Record.parse_i8 (r : Record) : POutcome (Int × Record) :=
  (r.parse_bytes 1).map fun p => (readSigned 1 p.1, p.2)

/-- `Record::parse_i16`. -/
def Record.parse_i16 (r : Record) : POutcome (Int × Record) :=
  (r.parse_bytes 2).map fun p => (readSigned 2 p.1, p.2)

/-- `Record::parse_i32`. -/
def Record.parse_i32 (r : Record) : POutcome (Int × Record) :=
  (r.parse_bytes 4).map fun p => (readSigned 4 p.1, p.2)

/-- `Record::parse_i32_opt`. -/
def Record.parse_i32_opt (r : Record) : POutcome (Option Int × Record) :=
  (r.parse_bytes_opt 4).map fun p => (p.1.map (readSigned 4), p.2)

/-- `Record::parse_i64`. -/
def Record.parse_i64 (r : Record) : POutcome (Int × Record) :=
  (r.parse_bytes 8).map fun p => (readSigned 8 p.1, p.2)

/-- `Record::parse_i64_opt`. -/
def Record.parse_i64_opt (r : Record) : POutcome (Option Int × Record) :=
  (r.parse_bytes_opt 8).map fun p => (p.1.map (readSigned 8), p.2)

/-- `Record::parse_u128`. -/
def Record.parse_u128 (r : Record) : POutcome (Nat × Record) :=
  (r.parse_bytes 16).map fun p => (readUnsigned 16 p.1, p.2)

/-- `Record::parse_bit`. -/
def Record.parse_bit (r : Record) : POutcome (Bool × Record) :=
  (r.parse_bytes 1).map fun p => (0 < p.1.getD 0 0, p.2)

/-- `Record::has_variable_length_columns`. -/
def Record.has_variable_length_columns (r : Record) : Bool :=
  r.variable_columns.isSome

/-- `Record::parse_variables_bytes_opt`: null bit set ⇒ null; no variable-column
area ⇒ recoverable error; exhausted variable iterator ⇒ the empty slice. -/
def Record.parse_variables_bytes_opt (r : Record) :
    POutcome (Option (List Nat) × Record) :=
  if (r.popNextNullBit).1 then
    .ok (none, (r.popNextNullBit).2)
  else
    match (r.popNextNullBit).2.variable_columns with
    | none => .err "no variable column data"
    | some vc =>
      .ok (some ((vc.next).1.getD []),
        { (r.popNextNullBit).2 with variable_columns := some (vc.next).2 })

/-!
### Date/time model

`chrono::DateTime<Utc>` values produced by the decoder are modelled as the signed
number of milliseconds since 1900-01-01 00:00:00 UTC (the decoder's base epoch;
the code never constructs sub-millisecond precision). `checked_add_signed` fails
exactly when the resulting date falls outside chrono's proleptic-Gregorian range
`-262144-01-01` … `262143-12-31`.
-/

/-- Day number of a proleptic-Gregorian civil date, days since 1970-01-01
(Howard Hinnant's `days_from_civil`, the algorithm chrono's calendar agrees
with). Used only to fix chrono's calendar-range constants. -/
def daysFromCivil (y m d : Int) : Int :=
  let y1 := if m ≤ 2 then y - 1 else y
  let era := Int.fdiv y1 400
  let yoe := y1 - era * 400
  let mp := Int.fmod (m + 9) 12
  let doy := Int.fdiv (153 * mp + 2) 5 + d - 1
  let doe := yoe * 365 + Int.fdiv yoe 4 - Int.fdiv yoe 100 + doy
  era * 146097 + doe - 719468

/-- Day number of the decoder's epoch 1900-01-01. -/
def epochDays1900 : Int := daysFromCivil 1900 1 1

/-- First valid chrono day, counted from 1900-01-01. -/
def chronoMinDay : Int := daysFromCivil (-262144) 1 1 - epochDays1900

/-- Last valid chrono day, counted from 1900-01-01. -/
def chronoMaxDay : Int := daysFromCivil 262143 12 31 - epochDays1900

/-- Whether a millisecond offset from 1900-01-01 lies in chrono's valid range. -/
def validMs (t : Int) : Bool :=
  if chronoMinDay ≤ Int.fdiv t 86400000 ∧ Int.fdiv t 86400000 ≤ chronoMaxDay then
    true
  else
    false

/-- `chrono`'s `checked_add_signed` on the millisecond model: `none` on overflow
of the valid calendar range. -/
def checkedAddSigned (t ms : Int) : Option Int :=
  if validMs (t + ms) then some (t + ms) else none

/-- Round `v / 2^m` to the nearest integer, ties to even (the IEEE-754 default
rounding applied to a value whose significand must lose its final `m` bits). -/
def rneDiv (v : Int) (m : Nat) : Int :=
  if 2 * (v - Int.fdiv v (2 ^ m) * 2 ^ m) < 2 ^ m then Int.fdiv v (2 ^ m)
  else if (2 ^ m : Int) < 2 * (v - Int.fdiv v (2 ^ m) * 2 ^ m) then Int.fdiv v (2 ^ m) + 1
  else if Int.fdiv v (2 ^ m) % 2 = 0 then Int.fdiv v (2 ^ m)
  else Int.fdiv v (2 ^ m) + 1

/-- Exact integer model of the Rust expression
`(time as f64 * Record::CLOCK_TICK_MS) as i64` from `Record::parse_datetime_opt`,
where `CLOCK_TICK_MS = 10.0 / 3.0`.

The `f64` constant `10.0 / 3.0` is exactly `7505999378950827 / 2^51` (the
IEEE-754 double nearest to 10/3). For `t ≠ 0` the exact product `t · 10.0/3.0`
equals `v / 2^51` with `v = t · 7505999378950827`; multiplying rounds it to the
nearest double, i.e. to 53 significant bits: with `k` the exponent of the result
(`2^k ≤ |v|/2^51 < 2^(k+1)`, so `k = log2 |v| − 51 ≥ 1` here), the rounded
product is `rneDiv v (k−1) · 2^(k−52)`. The `as i64` cast then truncates toward
zero, giving `(rneDiv v (k−1)).tdiv 2^(52−k)`. No overflow, infinity or
subnormal can occur for `t` in the `i32` range. -/
def tickToMsF64 (t : Int) : Int :=
  if t = 0 then 0
  else
    (rneDiv (t * 7505999378950827)
        (Nat.log2 (t * 7505999378950827).natAbs - 51 - 1)).tdiv
      (2 ^ (52 - (Nat.log2 (t * 7505999378950827).natAbs - 51)))

/-- `Record::parse_datetime_opt`: 8 bytes — i32 LE clock ticks, then i32 LE days.
The two `checked_add_signed` calls are each turned into a recoverable error by
`ok_or(...)?` on overflow. -/
def Record.parse_datetime_opt (r : Record) : POutcome (Option Int × Record) :=
  (r.parse_bytes_opt 8).bind fun p =>
    match p.1 with
    | none => .ok (none, p.2)
    | some bytes =>
      let time := readSigned 4 bytes
      let days := readSigned 4 (bytes.drop 4)
      match checkedAddSigned 0 (tickToMsF64 time) with
      | none => .err "Cannot parse datetime due to overflow"
      | some t1 =>
        match checkedAddSigned t1 (days * 86400000) with
        | none => .err "Cannot parse datetime due to overflow"
        | some t2 => .ok (some t2, p.2)

/-- Millisecond offset of 0001-01-01 00:00:00 from the 1900-01-01 epoch
(`Utc.ymd(1, 1, 1).and_hms(0, 0, 0)` in `parse_datetime2_opt`). -/
def year1Ms : Int := (daysFromCivil 1 1 1 - epochDays1900) * 86400000

/-- `Record::parse_datetime2_opt`: 8 bytes — a 3–5 byte time part (read and
discarded), then 3 bytes i24 LE days since 0001-01-01. -/
def Record.parse_datetime2_opt (r : Record) (scale : Nat) :
    POutcome (Option Int × Record) :=
  (r.parse_bytes_opt 8).bind fun p =>
    match p.1 with
    | none => .ok (none, p.2)
    | some bytes =>
      let bytes_of_time := if scale ≤ 2 then 3 else if scale ≤ 4 then 4 else 5
      let days := readSigned 3 (bytes.drop bytes_of_time)
      match checkedAddSigned year1Ms (days * 86400000) with
      | none => .err "Cannot parse datetime due to overflow"
      | some t1 => .ok (some t1, p.2)

/-!
### Decimal model

`rust_decimal::Decimal` is modelled by its sign flag, 96-bit mantissa magnitude
and scale. `Decimal::from_i128_with_scale` panics when the magnitude does not
fit in 96 bits or the scale exceeds 28.
-/

/-- Model of `rust_decimal::Decimal`. -/
structure DecimalRepr : Type where
  sign_positive : Bool
  mantissa : Nat
  scale : Nat
deriving DecidableEq, Repr

/-- `Decimal::from_i128_with_scale` (panics modelled by `.panic`). -/
def Decimal.fromI128WithScale (x : Int) (scale : Nat) : POutcome DecimalRepr :=
  if 28 < scale then .panic "Scale exceeds the maximum precision allowed"
  else if 2 ^ 96 ≤ x.natAbs then .panic "Decimal overflow"
  else .ok ⟨0 ≤ x, x.natAbs, scale⟩

/-- `Decimal::set_sign_positive`. -/
def DecimalRepr.setSignPositive (d : DecimalRepr) (b : Bool) : DecimalRepr :=
  { d with sign_positive := b }

/-- Storage bytes consumed by `Record::parse_decimal_opt` for a given precision
(`1 + 4`, `1 + 2·4`, `1 + 3·4` or `1 + 4·4`). -/
def decimalStorageBytes (precision : Nat) : Nat :=
  1 + (if precision ≤ 9 then 4
       else if precision ≤ 19 then 2 * 4
       else if precision ≤ 28 then 3 * 4
       else 4 * 4)

/-- `Record::parse_decimal_opt`: consume the storage bytes (null-bitmap aware);
on a non-null value the first byte is the sign (non-zero = positive) and the
rest is a two's-complement LE integer of 32/64/128 bits — precisions 20–28 hit
the Rust `todo!`, a panic. The panic only happens when the value is non-null,
because it sits inside the `Option::map` closure. -/
def Record.parse_decimal_opt (r : Record) (precision scale : Nat) :
    POutcome (Option DecimalRepr × Record) :=
  (r.parse_bytes_opt (decimalStorageBytes precision)).bind fun p =>
    match p.1 with
    | none => .ok (none, p.2)
    | some bytes =>
      let sign_byte := bytes.getD 0 0
      let rest := bytes.drop 1
      if precision ≤ 9 then
        (Decimal.fromI128WithScale (readSigned 4 rest) scale).map fun d =>
          (some (d.setSignPositive (sign_byte ≠ 0)), p.2)
      else if precision ≤ 19 then
        (Decimal.fromI128WithScale (readSigned 8 rest) scale).map fun d =>
          (some (d.setSignPositive (sign_byte ≠ 0)), p.2)
      else if precision ≤ 28 then
        .panic "not yet implemented"
      else
        (Decimal.fromI128WithScale (readSigned 16 rest) scale).map fun d =>
          (some (d.setSignPositive (sign_byte ≠ 0)), p.2)

/-!
### String decoding

Models of the external `encoding_rs` decoders (`UTF_16LE.decode` and
`UTF_8.decode`): malformed sequences become U+FFFD per the WHATWG replacement
behaviour. The claims under proof only depend on these through their results on
well-formed input, so the models are straightforward decoders.
-/

/-- Collect the 16-bit code units of a little-endian byte list; a trailing lone
byte yields a replacement character marker. -/
def utf16leUnits : List Nat → List Nat
  | [] => []
  | [_] => [0xFFFD]
  | b0 :: b1 :: rest => (b0 + 256 * b1) :: utf16leUnits rest

/-- Combine UTF-16 code units into scalar values, replacing unpaired
surrogates with U+FFFD. -/
def utf16Scalars : List Nat → List Nat
  | [] => []
  | u :: rest =>
    if 0xD800 ≤ u ∧ u ≤ 0xDBFF then
      match rest with
      | v :: rest2 =>
        if 0xDC00 ≤ v ∧ v ≤ 0xDFFF then
          (0x10000 + (u - 0xD800) * 0x400 + (v - 0xDC00)) :: utf16Scalars rest2
        else
          0xFFFD :: utf16Scalars (v :: rest2)
      | [] => [0xFFFD]
    else if 0xDC00 ≤ u ∧ u ≤ 0xDFFF then
      0xFFFD :: utf16Scalars rest
    else
      u :: utf16Scalars rest
termination_by l => l.length
decreasing_by all_goals simp <;> omega

/-- Model of `encoding_rs::UTF_16LE.decode` producing a string. -/
def utf16leDecode (bytes : List Nat) : String :=
  ⟨(utf16Scalars (utf16leUnits bytes)).map Char.ofNat⟩

/-- Whether a byte is a UTF-8 continuation byte. -/
def isCont (b : Nat) : Bool := 0x80 ≤ b ∧ b < 0xC0

/-- Scalar values of a UTF-8 byte list, replacing malformed sequences with
U+FFFD (model of `encoding_rs::UTF_8.decode`'s replacement decoding). -/
def utf8Scalars : List Nat → List Nat
  | [] => []
  | b0 :: rest =>
    if b0 < 0x80 then b0 :: utf8Scalars rest
    else if 0xC2 ≤ b0 ∧ b0 ≤ 0xDF then
      match rest with
      | b1 :: rest1 =>
        if isCont b1 then ((b0 - 0xC0) * 64 + (b1 - 0x80)) :: utf8Scalars rest1
        else 0xFFFD :: utf8Scalars (b1 :: rest1)
      | [] => [0xFFFD]
    else if 0xE0 ≤ b0 ∧ b0 ≤ 0xEF then
      match rest with
      | b1 :: b2 :: rest2 =>
        if isCont b1 ∧ isCont b2 then
          let s := (b0 - 0xE0) * 4096 + (b1 - 0x80) * 64 + (b2 - 0x80)
          if 0x800 ≤ s ∧ ¬(0xD800 ≤ s ∧ s ≤ 0xDFFF) then s :: utf8Scalars rest2
          else 0xFFFD :: utf8Scalars (b1 :: b2 :: rest2)
        else 0xFFFD :: utf8Scalars (b1 :: b2 :: rest2)
      | _ => [0xFFFD]
    else if 0xF0 ≤ b0 ∧ b0 ≤ 0xF4 then
      match rest with
      | b1 :: b2 :: b3 :: rest3 =>
        if isCont b1 ∧ isCont b2 ∧ isCont b3 then
          let s := (b0 - 0xF0) * 262144 + (b1 - 0x80) * 4096 +
            (b2 - 0x80) * 64 + (b3 - 0x80)
          if 0x10000 ≤ s ∧ s ≤ 0x10FFFF then s :: utf8Scalars rest3
          else 0xFFFD :: utf8Scalars (b1 :: b2 :: b3 :: rest3)
        else 0xFFFD :: utf8Scalars (b1 :: b2 :: b3 :: rest3)
      | _ => [0xFFFD]
    else 0xFFFD :: utf8Scalars rest
termination_by l => l.length
decreasing_by all_goals simp <;> omega

/-- Model of `encoding_rs::UTF_8.decode` producing a string. -/
def utf8Decode (bytes : List Nat) : String :=
  ⟨(utf8Scalars bytes).map Char.ofNat⟩

/-- `Record::parse_string_from_fixed_bytes`: `len` fixed bytes decoded as UTF-8. -/
def Record.parse_string_from_fixed_bytes (r : Record) (len : Nat) :
    POutcome (String × Record) :=
  (r.parse_bytes len).map fun p => (utf8Decode p.1, p.2)

/-- `Record::parse_string`: one variable-length slice; the null bit or an empty
slice yields null, anything else decodes as UTF-16LE. -/
def Record.parse_string (r : Record) : POutcome (Option String × Record) :=
  r.parse_variables_bytes_opt.bind fun p =>
    match p.1 with
    | some first =>
      if first.isEmpty then .ok (none, p.2)
      else .ok (some (utf16leDecode first), p.2)
    | none => .ok (none, p.2)

/-- `Record::parse_uuid` (`Uuid::from_u128_le` keeps the u128 value; the model
carries the u128). -/
def Record.parse_uuid (r : Record) : POutcome (Nat × Record) :=
  r.parse_u128.map fun p => (p.1, p.2)

/-!
### Values, columns, rows (`src/lib.rs`)
-/

/-- `src/lib.rs`: `enum Value`. `DateTime` carries the millisecond model,
`Uuid` the u128 value, `Decimal` the decimal model. -/
inductive Value : Type where
  | Bit (b : Bool)
  | TinyInt (i : Int)
  | SmallInt (i : Int)
  | Int (i : Int)
  | BigInt (i : Int)
  | Decimal (d : DecimalRepr)
  | String (s : String)
  | DateTime (ms : Int)
  | Uuid (u : Nat)
  | Null
deriving DecidableEq, Repr

/-- Catalog column descriptor consumed by `Value::parse`.

Modelled from the spec: `src/sys.rs`'s `Column` in the provided sources carries
only `name` and `type`, while `MdfDatabase::rows` / `Value::parse` in
`src/lib.rs` also read `column.max_length`, `column.precision` and
`column.scale`; those three fields are missing from the provided sources and
are modelled here per spec §4.4 (`Column{name, sql_type, max_length,
precision, scale}`). -/
structure Column : Type where
  name : String
  type : String
  max_length : Nat
  precision : Nat
  scale : Nat
deriving DecidableEq, Repr

/-- `src/lib.rs`: `Value::parse` — dispatch on the column's SQL type name. -/
def Value.parse (column : Column) (record : Record) : POutcome (Value × Record) :=
  if column.type = "bit" then
    record.parse_bit.map fun p => (Value.Bit p.1, p.2)
  else if column.type = "datetime" then
    record.parse_datetime_opt.map fun p =>
      (match p.1 with
       | some d => Value.DateTime d
       | none => Value.Null, p.2)
  else if column.type = "datetime2" then
    (record.parse_datetime2_opt column.scale).map fun p =>
      (match p.1 with
       | some d => Value.DateTime d
       | none => Value.Null, p.2)
  else if column.type = "tinyint" then
    record.parse_i8.map fun p => (Value.TinyInt p.1, p.2)
  else if column.type = "smallint" then
    record.parse_i16.map fun p => (Value.SmallInt p.1, p.2)
  else if column.type = "int" ∨ column.type = "money" then
    record.parse_i32_opt.map fun p =>
      (match p.1 with
       | some i => Value.Int i
       | none => Value.Null, p.2)
  else if column.type = "bigint" then
    record.parse_i64_opt.map fun p =>
      (match p.1 with
       | some i => Value.BigInt i
       | none => Value.Null, p.2)
  else if column.type = "nchar" then
    (record.parse_string_from_fixed_bytes column.max_length).map fun p =>
      (Value.String p.1, p.2)
  else if column.type = "nvarchar" ∨ column.type = "varchar" then
    record.parse_string.map fun p =>
      (match p.1 with
       | some s => Value.String s
       | none => Value.Null, p.2)
  else if column.type = "uniqueidentifier" then
    record.parse_uuid.map fun p => (Value.Uuid p.1, p.2)
  else if column.type = "decimal" then
    (record.parse_decimal_opt column.precision column.scale).map fun p =>
      (match p.1 with
       | some d => Value.Decimal d
       | none => Value.Null, p.2)
  else
    .err "Unknown column type"

/-- `std::collections::BTreeMap::insert` on the model of a `BTreeMap<String,
Value>` as an association list strictly sorted by key. -/
def btreeInsert : List (String × Value) → String → Value → List (String × Value)
  | [], k, v => [(k, v)]
  | (k1, v1) :: rest, k, v =>
    if k.data < k1.data then (k, v) :: (k1, v1) :: rest
    else if k = k1 then (k, v) :: rest
    else (k1, v1) :: btreeInsert rest k v

/-- `src/lib.rs`: `struct Row` — a `BTreeMap<String, Value>`, modelled as its
sorted entry list. -/
structure Row : Type where
  columns : List (String × Value)
deriving DecidableEq, Repr

/-- `Row::value`: `BTreeMap::get`. -/
def Row.value (row : Row) (column_name : String) : Option Value :=
  (row.columns.find? fun p => p.1 = column_name).map fun p => p.2

/-- `Row::values`: `BTreeMap::into_iter().collect()` — the key-sorted entry
list itself. -/
def Row.values (row : Row) : List (String × Value) :=
  row.columns

/-- Inner loop of `MdfDatabase::rows` (src/lib.rs lines 155–172): decode the
given columns left to right against a record, inserting each value into the
`BTreeMap`; on a recoverable error the loop `break`s (the error is only
logged), keeping the columns decoded so far. Rust panics propagate. -/
def rowColumns : List Column → Record → List (String × Value) →
    POutcome (List (String × Value))
  | [], _, acc => .ok acc
  | c :: cs, r, acc =>
    match Value.parse c r with
    | .ok (v, r1) => rowColumns cs r1 (btreeInsert acc c.name v)
    | .err _ => .ok acc
    | .panic m => .panic m

/-- Per-page body of `MdfDatabase::rows` (src/lib.rs lines 152–175): one `Row`
is pushed (as an `Ok` stream item) for every record of the page. -/
def pageRows (cols : List Column) : List Record → POutcome (List Row)
  | [] => .ok []
  | r :: rs =>
    (rowColumns cols r []).bind fun colsv =>
      (pageRows cols rs).map fun rest => Row.mk colsv :: rest

/-!
### Pages (`src/pages.rs`)
-/

/-- `src/pages.rs`: `struct PagePointer`. -/
structure PagePointer : Type where
  page_id : Nat
  file_id : Nat
deriving DecidableEq, Repr

/-- `impl TryFrom<&[u8]> for PagePointer`: 6 bytes; the page id is
`read_u16` on the first 4 bytes (only 2 are consumed), the file id the
u16 at bytes 4–5. -/
def PagePointer.tryFrom (bytes : List Nat) : POutcome PagePointer :=
  if bytes.length = 6 then
    .ok ⟨readUnsigned 2 bytes, readUnsigned 2 (bytes.drop 4)⟩
  else
    .err "Page pointer must be 6 bytes."

/-- `src/pages.rs`: `struct PageHeader`. -/
structure PageHeader : Type where
  slot_count : Nat
  next_page_pointer : Option PagePointer
deriving DecidableEq, Repr

/-- `impl TryFrom<&[u8]> for PageHeader`: 96 header bytes; next-page pointer
at bytes 16..22 (kept only when its page id is non-zero), slot count u16 at
bytes 22..24. -/
def PageHeader.tryFrom (bytes : List Nat) : POutcome PageHeader :=
  if bytes.length = 96 then
    (PagePointer.tryFrom ((bytes.drop 16).take 6)).map fun npp =>
      ⟨readUnsigned 2 (bytes.drop 22), if 0 < npp.page_id then some npp else none⟩
  else
    .err "Page header must be 96 bytes."

/-- `src/pages.rs`: `struct Page`. -/
structure Page : Type where
  header : PageHeader
  bytes : List Nat
deriving DecidableEq, Repr

/-- `impl TryFrom<[u8; 8192]> for Page`. -/
def Page.tryFrom (bytes : List Nat) : POutcome Page :=
  (PageHeader.tryFrom (bytes.take 96)).map fun h => ⟨h, bytes⟩

/-- Consecutive little-endian u16 reads until the slice is exhausted (the
`while !slot_bytes.is_empty()` loop of `Page::slots`; callers always pass an
even number of bytes). -/
def readU16List : List Nat → List Nat
  | b0 :: b1 :: rest => (b0 + 256 * b1) :: readU16List rest
  | _ => []

/-- `Page::slots`: the u16 values of the last `2·slot_count` bytes of the
page, sorted ascending. `none` models the Rust panic when `slot_count·2`
exceeds the page size (the `self.bytes.len() - slot_count*2` subtraction). -/
def Page.slots (p : Page) : Option (List Nat) :=
  if 2 * p.header.slot_count ≤ p.bytes.length then
    some (List.insertionSort (· ≤ ·)
      (readU16List (p.bytes.drop (p.bytes.length - 2 * p.header.slot_count))))
  else
    none

/-- The byte range of each record in `Page::records`: slot `i` to slot `i+1`,
the last slot extending to the end of the page buffer. -/
def Page.recordRanges (p : Page) : Option (List (Nat × Nat)) :=
  p.slots.map fun slots =>
    (List.range slots.length).map fun index =>
      (slots.getD index 0,
       if index + 1 < slots.length then slots.getD (index + 1) 0 else p.bytes.length)

/-- Rust slice `bytes[a..b]`: `none` models the panic on an invalid range. -/
def sliceRange (bytes : List Nat) (a b : Nat) : Option (List Nat) :=
  if a ≤ b ∧ b ≤ bytes.length then some ((bytes.take b).drop a) else none

/-- Loop body of `Page::records`: build a record from every range;
`Record::try_from(...).unwrap()` turns a recoverable error into a panic. -/
def recordsFromRanges (bytes : List Nat) : List (Nat × Nat) → POutcome (List Record)
  | [] => .ok []
  | (a, b) :: rest =>
    match sliceRange bytes a b with
    | none => .panic "slice index out of range"
    | some s =>
      match Record.tryFrom s with
      | .ok r => (recordsFromRanges bytes rest).map fun rs => r :: rs
      | .err m => .panic m
      | .panic m => .panic m

/-- `Page::records`. -/
def Page.records (p : Page) : POutcome (List Record) :=
  match p.recordRanges with
  | none => .panic "slot range out of bounds"
  | some ranges => recordsFromRanges p.bytes ranges

/-- Whether every column of the list decodes successfully against the record
(the row loop of `MdfDatabase::rows` never hits its `break`). Used only to
state theorems about fully decoded rows. -/
def allColumnsDecode : List Column → Record → Bool
  | [], _ => true
  | c :: cs, r =>
    match Value.parse c r with
    | .ok (_, r1) => allColumnsDecode cs r1
    | _ => false

/-- A concrete well-formed 8192-byte page: slot count 1 (header bytes 22–23),
no next-page pointer, one record at offset 96 (status 0, fixed-length total 5,
one fixed byte, zero columns), slot array `[96]` in the last two bytes. -/
def witnessPage : Page :=
  ⟨⟨1, none⟩,
    List.replicate 22 0 ++ [1, 0] ++ List.replicate 72 0 ++
      [0, 0, 5, 0, 1, 0, 0] ++ List.replicate 8087 0 ++ [96, 0]⟩

/-!
## Theorems

Helper lemmas first, then one theorem per claim (with witnesses and
counterexamples where required).
-/

/-- A record with no null bitmap pops a clear null bit and is unchanged. -/
theorem popNextNullBit_of_no_bitmap (r : Record) (h : r.null_bitmap = none) :
    r.popNextNullBit = (false, r) := by
  unfold Record.popNextNullBit
  rw [h]

/-- A record whose null-bitmap iterator is exhausted pops a clear null bit
and is unchanged. -/
theorem popNextNullBit_of_exhausted (r : Record) (nb : NullBitmap)
    (h : r.null_bitmap = some nb) (hi : nb.null_bitmap.length ≤ nb.index) :
    r.popNextNullBit = (false, r) := by
  have hlt : ¬nb.index < nb.null_bitmap.length := by omega
  obtain ⟨fb, t, onb, ovc⟩ := r
  simp only at h
  subst h
  simp [Record.popNextNullBit, NullBitmap.next, hlt]

/-- `pop_next_null_bit` never touches the variable-column state. -/
theorem popNextNullBit_variable_columns (r : Record) :
    (r.popNextNullBit).2.variable_columns = r.variable_columns := by
  unfold Record.popNextNullBit
  split
  · split <;> rfl
  · rfl

/-- Behaviour of `parse_bytes_opt` on a record that pops a clear null bit. -/
theorem parse_bytes_opt_of_pop_false (r : Record) (len : Nat)
    (h : r.popNextNullBit = (false, r)) :
    r.parse_bytes_opt len =
      if len ≤ r.fixed_bytes.length then
        .ok (some (r.fixed_bytes.take len),
          { r with fixed_bytes := r.fixed_bytes.drop len })
      else
        .panic "split_at past end of fixed bytes" := by
  unfold Record.parse_bytes_opt
  rw [h]
  simp

/-- C10 (implicit claim): a record constructed without the has-null-bitmap
status bit — and likewise one whose null-bitmap bits are exhausted — pops a
clear null bit for every column, so `parse_bytes_opt` always yields `some` of
the next fixed bytes and the fixed-length optional parsers never return a
null (`none`) value. -/
theorem C10_no_null_bitmap_never_null (r : Record) (len : Nat)
    (h : r.null_bitmap = none ∨
      ∃ nb, r.null_bitmap = some nb ∧ nb.null_bitmap.length ≤ nb.index) :
    (r.popNextNullBit).1 = false
    ∧ (len ≤ r.fixed_bytes.length →
        r.parse_bytes_opt len =
          .ok (some (r.fixed_bytes.take len),
            { r with fixed_bytes := r.fixed_bytes.drop len }))
    ∧ (∀ o, r.parse_bytes_opt len ≠ .ok (none, o))
    ∧ (∀ o, r.parse_i32_opt ≠ .ok (none, o))
    ∧ (∀ o, r.parse_i64_opt ≠ .ok (none, o))
    ∧ (∀ o, r.parse_datetime_opt ≠ .ok (none, o))
    ∧ (∀ p s o, r.parse_decimal_opt p s ≠ .ok (none, o)) := by
  have hpop : r.popNextNullBit = (false, r) := by
    rcases h with h | ⟨nb, h, hi⟩
    · exact popNextNullBit_of_no_bitmap r h
    · exact popNextNullBit_of_exhausted r nb h hi
  have hnever : ∀ l o, r.parse_bytes_opt l ≠ .ok (none, o) := by
    intro l o
    rw [parse_bytes_opt_of_pop_false r l hpop]
    split <;> simp
  refine ⟨by rw [hpop], ?_, hnever len, ?_, ?_, ?_, ?_⟩
  · intro hl
    rw [parse_bytes_opt_of_pop_false r len hpop, if_pos hl]
  · intro o
    unfold Record.parse_i32_opt
    rw [parse_bytes_opt_of_pop_false r 4 hpop]
    split <;> simp [POutcome.map]
  · intro o
    unfold Record.parse_i64_opt
    rw [parse_bytes_opt_of_pop_false r 8 hpop]
    split <;> simp [POutcome.map]
  · intro o
    unfold Record.parse_datetime_opt
    rw [parse_bytes_opt_of_pop_false r 8 hpop]
    split
    · simp only [POutcome.bind]
      split <;> try simp
      split <;> simp
    · simp [POutcome.bind]
  · intro p s o
    unfold Record.parse_decimal_opt
    rw [parse_bytes_opt_of_pop_false r (decimalStorageBytes p) hpop]
    split
    · simp only [POutcome.bind]
      split_ifs <;>
        simp [Decimal.fromI128WithScale, POutcome.map] <;>
        split_ifs <;> simp
    · simp [POutcome.bind]

/-- Witness for C10 at a concrete record with four fixed bytes and no null
bitmap. -/
theorem C10_witness :
    ((⟨[9, 8, 7, 6], .Primary, none, none⟩ : Record).null_bitmap = none ∨
      ∃ nb, (⟨[9, 8, 7, 6], .Primary, none, none⟩ : Record).null_bitmap = some nb ∧
        nb.null_bitmap.length ≤ nb.index)
    ∧ ((⟨[9, 8, 7, 6], .Primary, none, none⟩ : Record).popNextNullBit).1 = false :=
  ⟨Or.inl rfl,
    (C10_no_null_bitmap_never_null ⟨[9, 8, 7, 6], .Primary, none, none⟩ 4 (Or.inl rfl)).1⟩

/-- C7: when the record has a variable-length area, the popped null bit is
clear, and the variable-column iterator is exhausted, the next variable column
is the empty slice (`some []`), not null. -/
theorem C7_exhausted_variable_empty_slice (r : Record) (vc : VariableColumns)
    (hvc : r.variable_columns = some vc)
    (hnull : (r.popNextNullBit).1 = false)
    (hexh : (vc.next).1 = none) :
    r.parse_variables_bytes_opt =
      .ok (some [], { (r.popNextNullBit).2 with variable_columns := some (vc.next).2 }) := by
  have hv2 : (r.popNextNullBit).2.variable_columns = some vc := by
    rw [popNextNullBit_variable_columns, hvc]
  unfold Record.parse_variables_bytes_opt
  rw [hnull, if_neg (by simp), hv2]
  simp [hexh]

/-- Witness for C7 at a concrete record whose variable-column iterator has
already been taken (`read_bytes_index` spent). -/
theorem C7_witness :
    ((⟨[], .Primary, none, some ⟨[], [], none⟩⟩ : Record).variable_columns =
        some ⟨[], [], none⟩
      ∧ ((⟨[], .Primary, none, some ⟨[], [], none⟩⟩ : Record).popNextNullBit).1 = false
      ∧ ((⟨[], [], none⟩ : VariableColumns).next).1 = none)
    ∧ (⟨[], .Primary, none, some ⟨[], [], none⟩⟩ : Record).parse_variables_bytes_opt =
        .ok (some [],
          { ((⟨[], .Primary, none, some ⟨[], [], none⟩⟩ : Record).popNextNullBit).2 with
            variable_columns := some (((⟨[], [], none⟩ : VariableColumns).next).2) }) :=
  ⟨⟨rfl, rfl, rfl⟩,
    C7_exhausted_variable_empty_slice _ _ rfl rfl rfl⟩

/-- C8: every slice produced by the variable-column iterator is clipped to the
remaining buffer — it is a prefix of the remaining variable-column bytes, so
its length never exceeds them — and iteration is total (the wrap-around of the
malformed-length subtraction never aborts it). -/
theorem C8_variable_slice_clipped (vc : VariableColumns) (bs : List Nat)
    (vc2 : VariableColumns) (h : vc.next = (some bs, vc2)) :
    bs.length ≤ vc.variable_columns.length ∧ vc.variable_columns.take bs.length = bs := by
  have key : ∀ (l : List Nat) (m : Nat),
      (l.take m).length ≤ l.length ∧ l.take (l.take m).length = l.take m := by
    intro l m
    rw [List.length_take]
    refine ⟨Nat.min_le_right m l.length, ?_⟩
    rcases Nat.le_total m l.length with hm | hm
    · rw [Nat.min_eq_left hm]
    · rw [Nat.min_eq_right hm, List.take_length, List.take_of_length_le hm]
  unfold VariableColumns.next at h
  split at h
  · simp at h
  · split at h
    · simp at h
    · simp only [Prod.mk.injEq, Option.some.injEq] at h
      obtain ⟨hbs, -⟩ := h
      subst hbs
      exact key _ _

/-- C9 counterexample: a record byte range whose `fixed_length_total` field is 4
(fixed-length size 0) makes `Record::try_from` panic (`todo!`), not return a
recoverable error as the claim states. -/
theorem C9_cex_fixed_len_zero_panics :
    Record.tryFrom [0, 0, 4, 0] =
      .panic "No fixed length data! Record cannot be handled yet"
    ∧ ¬∃ m, Record.tryFrom [0, 0, 4, 0] = .err m := by
  have h1 : Record.tryFrom [0, 0, 4, 0] =
      .panic "No fixed length data! Record cannot be handled yet" := by decide
  refine ⟨h1, ?_⟩
  rintro ⟨m, hm⟩
  rw [h1] at hm
  exact POutcome.noConfusion hm

/-- C9 amended: a record whose `fixed_length_total` field equals 4 (so the
fixed-length size computes to zero) is rejected by a panic (the `todo!`), not
decoded — but the rejection is unrecoverable, not an `Err`. -/
theorem C9_amended_fixed_len_zero_panics (b0 b1 : Nat) (rest : List Nat) :
    Record.tryFrom (b0 :: b1 :: 4 :: 0 :: rest) =
      .panic "No fixed length data! Record cannot be handled yet" := by
  unfold Record.tryFrom
  simp [readU16]

/-- The complete behaviour of `parse_string` on a record with a variable-length
area: null bit ⇒ null; else the next variable slice, with the empty slice
turned into null and anything else decoded as UTF-16LE. -/
theorem parse_string_eq (r : Record) (vc : VariableColumns)
    (hvc : r.variable_columns = some vc) :
    r.parse_string =
      if (r.popNextNullBit).1 then .ok (none, (r.popNextNullBit).2)
      else if ((vc.next).1.getD []).isEmpty then
        .ok (none, { (r.popNextNullBit).2 with variable_columns := some (vc.next).2 })
      else
        .ok (some (utf16leDecode ((vc.next).1.getD [])),
          { (r.popNextNullBit).2 with variable_columns := some (vc.next).2 }) := by
  have hv2 : (r.popNextNullBit).2.variable_columns = some vc := by
    rw [popNextNullBit_variable_columns, hvc]
  unfold Record.parse_string Record.parse_variables_bytes_opt
  cases hb : (r.popNextNullBit).1 with
  | true => simp [POutcome.bind]
  | false =>
    rw [if_neg (by simp), hv2, if_neg (by simp)]
    simp [POutcome.bind]

/-- C6: for a record with a variable-length area, `parse_string` returns null
(`Ok (none, …)`) exactly when the column's null bit is set or the variable
slice it reads is empty; any other successful result is the slice decoded as
UTF-16LE. -/
theorem C6_string_null_iff (r : Record) (vc : VariableColumns)
    (hvc : r.variable_columns = some vc) :
    ((∃ o, r.parse_string = .ok (none, o)) ↔
      ((r.popNextNullBit).1 = true ∨ (vc.next).1.getD [] = []))
    ∧ (∀ s o, r.parse_string = .ok (some s, o) →
        s = utf16leDecode ((vc.next).1.getD []) ∧ (vc.next).1.getD [] ≠ []) := by
  have hps := parse_string_eq r vc hvc
  cases hb : (r.popNextNullBit).1 with
  | true =>
    rw [hb, if_pos rfl] at hps
    refine ⟨⟨fun _ => Or.inl rfl, fun _ => ⟨_, hps⟩⟩, ?_⟩
    intro s o hso
    rw [hps] at hso
    simp at hso
  | false =>
    rw [hb, if_neg (by simp)] at hps
    by_cases he : (vc.next).1.getD [] = []
    · rw [if_pos (by simp [he])] at hps
      refine ⟨⟨fun _ => Or.inr he, fun _ => ⟨_, hps⟩⟩, ?_⟩
      intro s o hso
      rw [hps] at hso
      simp at hso
    · rw [if_neg (by simp [he])] at hps
      refine ⟨⟨?_, ?_⟩, ?_⟩
      · rintro ⟨o, ho⟩
        rw [hps] at ho
        simp at ho
      · rintro (h1 | h2)
        · exact absurd h1 (by simp)
        · exact absurd h2 he
      · intro s o hso
        rw [hps] at hso
        simp only [POutcome.ok.injEq, Prod.mk.injEq, Option.some.injEq] at hso
        exact ⟨hso.1.symm, he⟩

/-- Witness for C6 at a record holding one non-empty variable column
(the UTF-16LE bytes of `"A"`). -/
theorem C6_witness :
    ((⟨[], .Primary, none, some ⟨[65, 0], [4, 0], some 2⟩⟩ : Record).variable_columns =
      some ⟨[65, 0], [4, 0], some 2⟩)
    ∧ (((∃ o, (⟨[], .Primary, none, some ⟨[65, 0], [4, 0], some 2⟩⟩ : Record).parse_string =
          .ok (none, o)) ↔
        (((⟨[], .Primary, none, some ⟨[65, 0], [4, 0], some 2⟩⟩ : Record).popNextNullBit).1 = true ∨
          (((⟨[65, 0], [4, 0], some 2⟩ : VariableColumns).next).1.getD []) = []))
      ∧ (∀ s o, (⟨[], .Primary, none, some ⟨[65, 0], [4, 0], some 2⟩⟩ : Record).parse_string =
            .ok (some s, o) →
          s = utf16leDecode ((((⟨[65, 0], [4, 0], some 2⟩ : VariableColumns).next).1.getD []))
          ∧ (((⟨[65, 0], [4, 0], some 2⟩ : VariableColumns).next).1.getD []) ≠ [])) :=
  ⟨rfl, C6_string_null_iff ⟨[], .Primary, none, some ⟨[65, 0], [4, 0], some 2⟩⟩
    ⟨[65, 0], [4, 0], some 2⟩ rfl⟩

/-- C4 counterexample: for precision 19 the decoder consumes 9 storage bytes
(and succeeds with them), not the 13 bytes the claim's
`1 + 4·⌈precision/9⌉` formula gives. -/
theorem C4_cex_precision19_storage :
    decimalStorageBytes 19 = 9
    ∧ 1 + 4 * ((19 + 8) / 9) = 13
    ∧ (⟨[1, 57, 48, 0, 0, 0, 0, 0, 0], .Primary, none, none⟩ : Record).parse_decimal_opt
        19 0 = .ok (some ⟨true, 12345, 0⟩, ⟨[], .Primary, none, none⟩) := by
  decide

/-- C4 amended: `parse_decimal_opt` consumes `1 + 4`, `1 + 8`, `1 + 12` or
`1 + 16` storage bytes for precisions ≤ 9, ≤ 19, ≤ 28 and ≥ 29 respectively
(in particular 9 bytes, not 13, when precision = 19); for a non-null value the
first byte is the sign (non-zero meaning positive) and the remaining bytes are
a two's-complement little-endian integer of 32/64/128 bits whose value,
scaled by `10^(−scale)`, forms the decimal — except that precisions 20–28 hit
the unimplemented 96-bit branch and panic. -/
theorem C4_amended_decimal (p s : Nat) (r : Record) (hs : s ≤ 28)
    (hnb : r.null_bitmap = none)
    (hlen : decimalStorageBytes p ≤ r.fixed_bytes.length) :
    (decimalStorageBytes p =
      1 + (if p ≤ 9 then 4 else if p ≤ 19 then 8 else if p ≤ 28 then 12 else 16))
    ∧ (20 ≤ p → p ≤ 28 → r.parse_decimal_opt p s = .panic "not yet implemented")
    ∧ ((p ≤ 19 ∨ 29 ≤ p) →
        (readSigned (if p ≤ 9 then 4 else if p ≤ 19 then 8 else 16)
          ((r.fixed_bytes.take (decimalStorageBytes p)).drop 1)).natAbs < 2 ^ 96 →
        r.parse_decimal_opt p s =
          .ok (some ⟨decide ((r.fixed_bytes.take (decimalStorageBytes p)).getD 0 0 ≠ 0),
              (readSigned (if p ≤ 9 then 4 else if p ≤ 19 then 8 else 16)
                ((r.fixed_bytes.take (decimalStorageBytes p)).drop 1)).natAbs, s⟩,
            { r with fixed_bytes := r.fixed_bytes.drop (decimalStorageBytes p) })) := by
  have hpop : r.popNextNullBit = (false, r) := popNextNullBit_of_no_bitmap r hnb
  have hpb : r.parse_bytes_opt (decimalStorageBytes p) =
      .ok (some (r.fixed_bytes.take (decimalStorageBytes p)),
        { r with fixed_bytes := r.fixed_bytes.drop (decimalStorageBytes p) }) := by
    rw [parse_bytes_opt_of_pop_false r _ hpop, if_pos hlen]
  refine ⟨by unfold decimalStorageBytes; split_ifs <;> norm_num, ?_, ?_⟩
  · intro h20 h28
    unfold Record.parse_decimal_opt
    rw [hpb]
    simp only [POutcome.bind]
    rw [if_neg (by omega), if_neg (by omega), if_pos h28]
  · intro hp hmant
    unfold Record.parse_decimal_opt
    rw [hpb]
    simp only [POutcome.bind]
    by_cases h9 : p ≤ 9
    · simp only [if_pos h9] at hmant ⊢
      unfold Decimal.fromI128WithScale
      rw [if_neg (by omega), if_neg (by omega)]
      simp [POutcome.map, DecimalRepr.setSignPositive]
    · by_cases h19 : p ≤ 19
      · simp only [if_neg h9, if_pos h19] at hmant ⊢
        unfold Decimal.fromI128WithScale
        rw [if_neg (by omega), if_neg (by omega)]
        simp [POutcome.map, DecimalRepr.setSignPositive]
      · have h29 : 29 ≤ p := by
          rcases hp with hp | hp
          · omega
          · exact hp
        have h28 : ¬p ≤ 28 := by omega
        simp only [if_neg h9, if_neg h19, if_neg h28] at hmant ⊢
        unfold Decimal.fromI128WithScale
        rw [if_neg (by omega), if_neg (by omega)]
        simp [POutcome.map, DecimalRepr.setSignPositive]

/-- Witness for C4 at precision 5, scale 3, on the 5 storage bytes of the
decimal −12.345 (sign byte 0). -/
theorem C4_witness :
    (3 ≤ 28
      ∧ (⟨[0, 57, 48, 0, 0], .Primary, none, none⟩ : Record).null_bitmap = none
      ∧ decimalStorageBytes 5 ≤
          (⟨[0, 57, 48, 0, 0], .Primary, none, none⟩ : Record).fixed_bytes.length)
    ∧ ((decimalStorageBytes 5 =
        1 + (if 5 ≤ 9 then 4 else if 5 ≤ 19 then 8 else if 5 ≤ 28 then 12 else 16))
      ∧ (20 ≤ 5 → 5 ≤ 28 →
          (⟨[0, 57, 48, 0, 0], .Primary, none, none⟩ : Record).parse_decimal_opt 5 3 =
            .panic "not yet implemented")
      ∧ ((5 ≤ 19 ∨ 29 ≤ 5) →
          (readSigned (if 5 ≤ 9 then 4 else if 5 ≤ 19 then 8 else 16)
            (((⟨[0, 57, 48, 0, 0], .Primary, none, none⟩ : Record).fixed_bytes.take
              (decimalStorageBytes 5)).drop 1)).natAbs < 2 ^ 96 →
          (⟨[0, 57, 48, 0, 0], .Primary, none, none⟩ : Record).parse_decimal_opt 5 3 =
            .ok (some ⟨decide
                ((((⟨[0, 57, 48, 0, 0], .Primary, none, none⟩ : Record).fixed_bytes.take
                  (decimalStorageBytes 5)).getD 0 0) ≠ 0),
                (readSigned (if 5 ≤ 9 then 4 else if 5 ≤ 19 then 8 else 16)
                  (((⟨[0, 57, 48, 0, 0], .Primary, none, none⟩ : Record).fixed_bytes.take
                    (decimalStorageBytes 5)).drop 1)).natAbs, 3⟩,
              { (⟨[0, 57, 48, 0, 0], .Primary, none, none⟩ : Record) with
                fixed_bytes :=
                  (⟨[0, 57, 48, 0, 0], .Primary, none, none⟩ : Record).fixed_bytes.drop
                    (decimalStorageBytes 5) }))) :=
  ⟨⟨by decide, rfl, by decide⟩,
    C4_amended_decimal 5 3 ⟨[0, 57, 48, 0, 0], .Primary, none, none⟩ (by decide) rfl
      (by decide)⟩

/-- The keys after a `BTreeMap` insert are the inserted key plus the old keys. -/
theorem keys_btreeInsert (l : List (String × Value)) (k : String) (v : Value)
    (k' : String) :
    k' ∈ (btreeInsert l k v).map Prod.fst ↔ k' = k ∨ k' ∈ l.map Prod.fst := by
  induction l with
  | nil => simp [btreeInsert]
  | cons a rest ih =>
    obtain ⟨k1, v1⟩ := a
    unfold btreeInsert
    split_ifs with h1 h2
    · simp
    · subst h2
      simp only [List.map_cons, List.mem_cons, ih]
      constructor
      · rintro (h | h)
        · exact Or.inl h
        · exact Or.inr (Or.inr h)
      · rintro (h | h | h)
        · exact Or.inl h
        · exact Or.inl h
        · exact Or.inr h
    · simp only [List.map_cons, List.mem_cons, ih]
      tauto

/-- The head of a `BTreeMap` insert is the inserted pair or the old head. -/
theorem head_btreeInsert (l : List (String × Value)) (k : String) (v : Value) :
    (btreeInsert l k v).head? = some (k, v) ∨ (btreeInsert l k v).head? = l.head? := by
  cases l with
  | nil => exact Or.inl rfl
  | cons a rest =>
    obtain ⟨k1, v1⟩ := a
    unfold btreeInsert
    split_ifs with h1 h2
    · exact Or.inl rfl
    · exact Or.inl rfl
    · exact Or.inr rfl

/-- `BTreeMap` insert preserves strict sortedness by key. -/
theorem chain_btreeInsert (l : List (String × Value)) (k : String) (v : Value)
    (hl : List.Chain' (fun a b : String × Value => a.1 < b.1) l) :
    List.Chain' (fun a b : String × Value => a.1 < b.1) (btreeInsert l k v) := by
  induction l with
  | nil => simp [btreeInsert]
  | cons a rest ih =>
    obtain ⟨k1, v1⟩ := a
    rw [List.chain'_cons'] at hl
    obtain ⟨hhead, hrest⟩ := hl
    unfold btreeInsert
    split_ifs with h1 h2
    · rw [List.chain'_cons']
      refine ⟨?_, List.chain'_cons'.2 ⟨hhead, hrest⟩⟩
      intro y hy
      simp only [List.head?_cons, Option.mem_def, Option.some.injEq] at hy
      subst hy
      exact String.lt_iff_toList_lt.2 h1
    · subst h2
      rw [List.chain'_cons']
      exact ⟨hhead, hrest⟩
    · have hk1 : k1 < k := by
        rcases lt_trichotomy k k1 with h | h | h
        · exact absurd (String.lt_iff_toList_lt.1 h) h1
        · exact absurd h h2
        · exact h
      rw [List.chain'_cons']
      refine ⟨?_, ih hrest⟩
      intro y hy
      rcases head_btreeInsert rest k v with hh | hh
      · rw [hh] at hy
        simp only [Option.mem_def, Option.some.injEq] at hy
        subst hy
        exact hk1
      · rw [hh] at hy
        exact hhead y hy

/-- Invariant of the per-row column loop: sortedness of the accumulated map is
preserved, keys come from the processed columns or the accumulator, old keys
survive, and every column's key is present once all columns decode. -/
theorem rowColumns_inv (cols : List Column) :
    ∀ (rec : Record) (acc entries : List (String × Value)),
      rowColumns cols rec acc = .ok entries →
      (List.Chain' (fun a b : String × Value => a.1 < b.1) acc →
        List.Chain' (fun a b : String × Value => a.1 < b.1) entries)
      ∧ (∀ k ∈ entries.map Prod.fst, k ∈ cols.map Column.name ∨ k ∈ acc.map Prod.fst)
      ∧ (∀ k ∈ acc.map Prod.fst, k ∈ entries.map Prod.fst)
      ∧ (allColumnsDecode cols rec = true →
          ∀ c ∈ cols, c.name ∈ entries.map Prod.fst) := by
  induction cols with
  | nil =>
    intro rec acc entries h
    unfold rowColumns at h
    simp only [POutcome.ok.injEq] at h
    subst h
    exact ⟨id, fun k hk => Or.inr hk, fun k hk => hk, by simp⟩
  | cons c cs ih =>
    intro rec acc entries h
    unfold rowColumns at h
    cases hp : Value.parse c rec with
    | ok p =>
      obtain ⟨v, r1⟩ := p
      rw [hp] at h
      obtain ⟨ih1, ih2, ih3, ih4⟩ := ih r1 (btreeInsert acc c.name v) entries h
      refine ⟨?_, ?_, ?_, ?_⟩
      · intro hacc
        exact ih1 (chain_btreeInsert acc c.name v hacc)
      · intro k hk
        rcases ih2 k hk with hk2 | hk2
        · exact Or.inl (by simp [hk2])
        · rcases (keys_btreeInsert acc c.name v k).1 hk2 with hk3 | hk3
          · exact Or.inl (by simp [hk3])
          · exact Or.inr hk3
      · intro k hk
        exact ih3 k ((keys_btreeInsert acc c.name v k).2 (Or.inr hk))
      · intro hall c' hc'
        rcases List.mem_cons.1 hc' with hc' | hc'
        · subst hc'
          exact ih3 c'.name ((keys_btreeInsert acc c'.name v c'.name).2 (Or.inl rfl))
        · have hall' : allColumnsDecode cs r1 = true := by
            unfold allColumnsDecode at hall
            rw [hp] at hall
            exact hall
          exact ih4 hall' c' hc'
    | err m =>
      rw [hp] at h
      simp only [POutcome.ok.injEq] at h
      subst h
      refine ⟨id, fun k hk => Or.inr hk, fun k hk => hk, ?_⟩
      intro hall
      unfold allColumnsDecode at hall
      rw [hp] at hall
      exact absurd hall (by simp)
    | panic m =>
      rw [hp] at h
      exact absurd h (by simp)

/-- C2 counterexample: for a table declaring columns `b` then `a`,
`Row.values()` returns the pairs in lexicographic name order `a`, `b` — not
the declared order. -/
theorem C2_cex_values_not_declared_order :
    pageRows [⟨"b", "bit", 0, 0, 0⟩, ⟨"a", "bit", 0, 0, 0⟩]
        [⟨[1, 0], .Primary, none, none⟩] =
      .ok [⟨[("a", Value.Bit false), ("b", Value.Bit true)]⟩]
    ∧ (Row.values ⟨[("a", Value.Bit false), ("b", Value.Bit true)]⟩).map Prod.fst =
        ["a", "b"]
    ∧ [(⟨"b", "bit", 0, 0, 0⟩ : Column), ⟨"a", "bit", 0, 0, 0⟩].map Column.name =
        ["b", "a"]
    ∧ (["a", "b"] : List String) ≠ ["b", "a"] := by
  refine ⟨by decide, by decide, by decide, by decide⟩

/-- C2 amended: `Row.values()` returns the (name, value) pairs strictly sorted
by column name (the `BTreeMap` order, not the declared order); every key is a
declared column name, and when every column decodes the keys cover exactly the
declared column names (set equality). -/
theorem C2_amended_values_sorted_keys (cols : List Column) (rec : Record)
    (entries : List (String × Value))
    (h : rowColumns cols rec [] = .ok entries) :
    List.Chain' (fun a b : String × Value => a.1 < b.1) (Row.values ⟨entries⟩)
    ∧ (∀ k ∈ (Row.values (⟨entries⟩ : Row)).map Prod.fst, k ∈ cols.map Column.name)
    ∧ (allColumnsDecode cols rec = true →
        ∀ c ∈ cols, c.name ∈ (Row.values (⟨entries⟩ : Row)).map Prod.fst) := by
  obtain ⟨h1, h2, h3, h4⟩ := rowColumns_inv cols rec [] entries h
  refine ⟨h1 (by simp), ?_, h4⟩
  intro k hk
  rcases h2 k hk with hk2 | hk2
  · exact hk2
  · simp at hk2

/-- Witness for C2 at a one-column table whose single `bit` column decodes. -/
theorem C2_witness :
    rowColumns [⟨"a", "bit", 0, 0, 0⟩] ⟨[1], .Primary, none, none⟩ [] =
      .ok [("a", Value.Bit true)]
    ∧ (List.Chain' (fun a b : String × Value => a.1 < b.1)
        (Row.values ⟨[("a", Value.Bit true)]⟩)
      ∧ (∀ k ∈ (Row.values (⟨[("a", Value.Bit true)]⟩ : Row)).map Prod.fst,
          k ∈ [(⟨"a", "bit", 0, 0, 0⟩ : Column)].map Column.name)
      ∧ (allColumnsDecode [⟨"a", "bit", 0, 0, 0⟩] ⟨[1], .Primary, none, none⟩ = true →
          ∀ c ∈ [(⟨"a", "bit", 0, 0, 0⟩ : Column)],
            c.name ∈ (Row.values (⟨[("a", Value.Bit true)]⟩ : Row)).map Prod.fst)) :=
  ⟨by decide,
    C2_amended_values_sorted_keys [⟨"a", "bit", 0, 0, 0⟩] ⟨[1], .Primary, none, none⟩
      [("a", Value.Bit true)] (by decide)⟩

/-- C1 counterexample: with columns `b : bit` then `x : foo` (a type the
dispatch rejects), decoding the second column fails, yet the row is still
emitted, carrying the partially decoded columns — it is not dropped. -/
theorem C1_cex_partial_row_emitted :
    Value.parse ⟨"x", "foo", 0, 0, 0⟩ ⟨[], .Primary, none, none⟩ =
      .err "Unknown column type"
    ∧ pageRows [⟨"b", "bit", 0, 0, 0⟩, ⟨"x", "foo", 0, 0, 0⟩]
        [⟨[1], .Primary, none, none⟩] =
      .ok [⟨[("b", Value.Bit true)]⟩]
    ∧ pageRows [⟨"b", "bit", 0, 0, 0⟩, ⟨"x", "foo", 0, 0, 0⟩]
        [⟨[1], .Primary, none, none⟩] ≠ .ok [] := by
  refine ⟨by decide, by decide, by decide⟩

/-- C1 amended: the row loop emits exactly one row per record of the page —
a column-decode failure stops decoding that row's remaining columns (the
failure is only logged) but the partially decoded row is still pushed to the
stream, and iteration continues with the next record; no row is dropped. -/
theorem C1_amended_one_row_per_record (cols : List Column) (recs : List Record)
    (rows : List Row) (h : pageRows cols recs = .ok rows) :
    rows.length = recs.length := by
  induction recs generalizing rows with
  | nil =>
    unfold pageRows at h
    simp only [POutcome.ok.injEq] at h
    subst h
    rfl
  | cons r rs ih =>
    unfold pageRows at h
    cases hrc : rowColumns cols r [] with
    | ok colsv =>
      rw [hrc] at h
      simp only [POutcome.bind] at h
      cases hpr : pageRows cols rs with
      | ok rest =>
        rw [hpr] at h
        simp only [POutcome.map, POutcome.ok.injEq] at h
        subst h
        simp [ih rest hpr]
      | err m => rw [hpr] at h; exact absurd h (by simp [POutcome.map])
      | panic m => rw [hpr] at h; exact absurd h (by simp [POutcome.map])
    | err m => rw [hrc] at h; exact absurd h (by simp [POutcome.bind])
    | panic m => rw [hrc] at h; exact absurd h (by simp [POutcome.bind])

/-- Witness for C1 at the two-column page of the counterexample input: one
record in, one row out. -/
theorem C1_witness :
    pageRows [⟨"b", "bit", 0, 0, 0⟩, ⟨"x", "foo", 0, 0, 0⟩]
        [⟨[1], .Primary, none, none⟩] =
      .ok [⟨[("b", Value.Bit true)]⟩]
    ∧ ([(⟨[("b", Value.Bit true)]⟩ : Row)]).length =
        ([(⟨[1], .Primary, none, none⟩ : Record)]).length :=
  ⟨by decide,
    C1_amended_one_row_per_record [⟨"b", "bit", 0, 0, 0⟩, ⟨"x", "foo", 0, 0, 0⟩]
      [⟨[1], .Primary, none, none⟩] [⟨[("b", Value.Bit true)]⟩] (by decide)⟩

/-- `readU16List` produces one value per two bytes. -/
theorem readU16List_length : ∀ l : List Nat, (readU16List l).length = l.length / 2
  | [] => by simp [readU16List]
  | [_] => by simp [readU16List]
  | _ :: _ :: rest => by
    simp only [readU16List, List.length_cons, readU16List_length rest]
    omega

/-- `Page::records` builds one record per slot range when none of them fails. -/
theorem recordsFromRanges_length (bytes : List Nat) :
    ∀ (ranges : List (Nat × Nat)) (rs : List Record),
      recordsFromRanges bytes ranges = .ok rs → rs.length = ranges.length := by
  intro ranges
  induction ranges with
  | nil =>
    intro rs h
    unfold recordsFromRanges at h
    simp only [POutcome.ok.injEq] at h
    subst h
    rfl
  | cons ab rest ih =>
    intro rs h
    obtain ⟨a, b⟩ := ab
    unfold recordsFromRanges at h
    split at h
    · exact absurd h (by simp)
    · split at h
      · cases hrest : recordsFromRanges bytes rest with
        | ok rs1 =>
          rw [hrest] at h
          simp only [POutcome.map, POutcome.ok.injEq] at h
          subst h
          simp [ih rs1 hrest]
        | err m => rw [hrest] at h; exact absurd h (by simp [POutcome.map])
        | panic m => rw [hrest] at h; exact absurd h (by simp [POutcome.map])
      · exact absurd h (by simp)
      · exact absurd h (by simp)

/-- C5: for a full 8192-byte page whose slot array fits, `slots()` returns the
`slot_count` on-disk u16 offsets sorted ascending (a sorted permutation of
them); record `i`'s byte range runs from slot `i` to slot `i+1`, the last one
to the end of the page buffer, and when every range parses, `records()` yields
exactly `slot_count` records. -/
theorem C5_slots_and_records (p : Page) (hlen : p.bytes.length = 8192)
    (hsc : 2 * p.header.slot_count ≤ 8192) :
    ∃ slots, p.slots = some slots
      ∧ slots.length = p.header.slot_count
      ∧ List.Sorted (· ≤ ·) slots
      ∧ slots.Perm (readU16List (p.bytes.drop (8192 - 2 * p.header.slot_count)))
      ∧ p.recordRanges = some ((List.range p.header.slot_count).map fun i =>
          (slots.getD i 0,
            if i + 1 < p.header.slot_count then slots.getD (i + 1) 0 else 8192))
      ∧ ∀ rs, p.records = .ok rs → rs.length = p.header.slot_count := by
  have hsc' : 2 * p.header.slot_count ≤ p.bytes.length := by omega
  set raw := readU16List (p.bytes.drop (p.bytes.length - 2 * p.header.slot_count)) with hraw
  set slots := List.insertionSort (· ≤ ·) raw with hslotsdef
  have hslots : p.slots = some slots := by
    unfold Page.slots
    rw [if_pos hsc']
  have hperm : slots.Perm raw := List.perm_insertionSort _ _
  have hslen : slots.length = p.header.slot_count := by
    rw [hperm.length_eq, hraw, readU16List_length, List.length_drop]
    omega
  have hrr : p.recordRanges = some ((List.range p.header.slot_count).map fun i =>
      (slots.getD i 0,
        if i + 1 < p.header.slot_count then slots.getD (i + 1) 0 else 8192)) := by
    unfold Page.recordRanges
    rw [hslots, Option.map_some', hslen, hlen]
  refine ⟨slots, hslots, hslen, List.sorted_insertionSort _ _, ?_, hrr, ?_⟩
  · rw [hraw, hlen] at hperm
    exact hperm
  · intro rs hrs
    unfold Page.records at hrs
    split at hrs
    · exact absurd hrs (by simp)
    · rename_i ranges heq
      rw [hrr] at heq
      simp only [Option.some.injEq] at heq
      subst heq
      rw [recordsFromRanges_length p.bytes _ rs hrs, List.length_map, List.length_range]

/-- Witness for C5 at the concrete one-slot page `witnessPage`. -/
theorem C5_witness :
    (witnessPage.bytes.length = 8192 ∧ 2 * witnessPage.header.slot_count ≤ 8192)
    ∧ ∃ slots, witnessPage.slots = some slots
      ∧ slots.length = witnessPage.header.slot_count
      ∧ List.Sorted (· ≤ ·) slots
      ∧ slots.Perm (readU16List (witnessPage.bytes.drop
          (8192 - 2 * witnessPage.header.slot_count)))
      ∧ witnessPage.recordRanges = some ((List.range witnessPage.header.slot_count).map fun i =>
          (slots.getD i 0,
            if i + 1 < witnessPage.header.slot_count then slots.getD (i + 1) 0 else 8192))
      ∧ ∀ rs, witnessPage.records = .ok rs → rs.length = witnessPage.header.slot_count :=
  ⟨⟨by norm_num [witnessPage], by norm_num [witnessPage]⟩,
    C5_slots_and_records witnessPage (by norm_num [witnessPage]) (by norm_num [witnessPage])⟩

/-- Round-to-nearest error bound: `rneDiv v m · 2^m` is within half of `2^m`
of `v`. -/
theorem rneDiv_err (v : Int) (m : Nat) :
    -(2 ^ m : Int) ≤ 2 * (rneDiv v m * 2 ^ m - v)
    ∧ 2 * (rneDiv v m * 2 ^ m - v) ≤ 2 ^ m := by
  have hdpos : (0 : Int) < 2 ^ m := by positivity
  have hf : v - Int.fdiv v (2 ^ m) * 2 ^ m = Int.fmod v (2 ^ m) := by
    rw [Int.fmod_def]
    ring
  have hf0 : 0 ≤ v - Int.fdiv v (2 ^ m) * 2 ^ m := by
    rw [hf]
    exact Int.fmod_nonneg' v hdpos
  have hfd : v - Int.fdiv v (2 ^ m) * 2 ^ m < 2 ^ m := by
    rw [hf]
    exact Int.fmod_lt_of_pos v hdpos
  unfold rneDiv
  split_ifs with hc1 hc2 hc3 <;> constructor <;> nlinarith

/-- Truncating remainder of a negated dividend. -/
theorem tmod_neg_left (a b : Int) : (-a).tmod b = -(a.tmod b) := by
  rw [Int.tmod_def, Int.tmod_def, Int.neg_tdiv]
  ring

/-- Bounds of the truncating remainder for a nonpositive dividend. -/
theorem tmod_nonpos_bounds (a b : Int) (ha : a ≤ 0) (hb : 0 < b) :
    -b < a.tmod b ∧ a.tmod b ≤ 0 := by
  have h1 : 0 ≤ (-a).tmod b := Int.tmod_nonneg b (by omega)
  have h2 : (-a).tmod b < b := Int.tmod_lt_of_pos (-a) hb
  rw [tmod_neg_left] at h1 h2
  omega

/-- A list of bytes reads to a value below `256 ^ length`. -/
theorem leNat_lt (l : List Nat) (h : ∀ b ∈ l, b < 256) :
    leNat l < 256 ^ l.length := by
  induction l with
  | nil => simp [leNat]
  | cons b rest ih =>
    have hb : b < 256 := h b (by simp)
    have hr : leNat rest < 256 ^ rest.length := ih fun x hx => h x (by simp [hx])
    simp only [leNat, List.length_cons, pow_succ]
    have hP : (0 : Nat) < 256 ^ rest.length := by positivity
    set P := 256 ^ rest.length
    omega

/-- `toSigned 32` lands in the `i32` range for an in-range unsigned value. -/
theorem toSigned_i32_range (u : Nat) (hu : u < 2 ^ 32) :
    -(2 ^ 31) ≤ toSigned 32 u ∧ toSigned 32 u < 2 ^ 31 := by
  unfold toSigned
  split_ifs with h <;> constructor <;> simp <;> omega

/-- `rneDiv` is the floor quotient or one more. -/
theorem rneDiv_between (v : Int) (m : Nat) :
    Int.fdiv v (2 ^ m) ≤ rneDiv v m ∧ rneDiv v m ≤ Int.fdiv v (2 ^ m) + 1 := by
  unfold rneDiv
  split_ifs <;> omega

/-- The heart of C3: the exact `f64` model of
`(time as f64 * (10.0/3.0)) as i64` agrees with `time · 10/3` truncated
toward zero (`Int.tdiv (10·time) 3`) on the whole `i32` range. -/
theorem tickToMs_eq_tdiv (t : Int) (h1 : -(2 ^ 31) ≤ t) (h2 : t < 2 ^ 31) :
    tickToMsF64 t = (10 * t).tdiv 3 := by
  by_cases ht : t = 0
  · subst ht
    simp [tickToMsF64]
  unfold tickToMsF64
  rw [if_neg ht]
  set v : Int := t * 7505999378950827 with hv
  have hvnatAbs : v.natAbs = t.natAbs * 7505999378950827 := by
    rw [hv, Int.natAbs_mul]
    rfl
  have htabs1 : 1 ≤ t.natAbs := by omega
  have htabs2 : t.natAbs ≤ 2 ^ 31 := by
    have h31 : ((2 : Int) ^ 31) = 2147483648 := by norm_num
    rw [h31] at h1 h2
    omega
  have habs52 : 2 ^ 52 < v.natAbs := by
    rw [hvnatAbs]
    calc 2 ^ 52 < 1 * 7505999378950827 := by norm_num
    _ ≤ t.natAbs * 7505999378950827 := Nat.mul_le_mul_right _ htabs1
  have habs84 : v.natAbs < 2 ^ 84 := by
    rw [hvnatAbs]
    calc t.natAbs * 7505999378950827 ≤ 2 ^ 31 * 7505999378950827 :=
      Nat.mul_le_mul_right _ htabs2
    _ < 2 ^ 84 := by norm_num
  set L := Nat.log2 v.natAbs with hL
  have hvne : v.natAbs ≠ 0 := by omega
  have hL52 : 52 ≤ L := (Nat.le_log2 hvne).2 (by omega)
  have hL83 : L ≤ 83 := by
    have := (Nat.log2_lt hvne).2 habs84
    omega
  rw [show L - 51 - 1 = L - 52 from by omega, show 52 - (L - 51) = 103 - L from by omega]
  set m := L - 52 with hm
  have hm31 : m ≤ 31 := by omega
  have hdpos : (0 : Int) < 2 ^ m := by positivity
  set q := rneDiv v m with hq
  obtain ⟨he1, he2⟩ := rneDiv_err v m
  set E : Int := 2 ^ (103 - L) with hE
  have hEpos : (0 : Int) < E := by rw [hE]; positivity
  set R := q.tdiv E with hR
  set r2 := q.tmod E with hr2
  have hqRE : E * R + r2 = q := Int.tdiv_add_tmod q E
  have hEm : E * 2 ^ m = 2 ^ 51 := by
    rw [hE, ← pow_add]
    congr 1
    omega
  set T := (10 * t).tdiv 3 with hT
  set p := (10 * t).tmod 3 with hp
  have hTp : 3 * T + p = 10 * t := Int.tdiv_add_tmod (10 * t) 3
  have h3v : 3 * v = 10 * t * 2 ^ 51 + t := by rw [hv]; ring
  set e : Int := q * 2 ^ m - v with he
  set A : Int := r2 * 2 ^ m with hA
  have key : 3 * (R - T) * 2 ^ 51 = p * 2 ^ 51 + t + 3 * e - 3 * A := by
    rw [he, hA]
    linear_combination (3 * (2 : Int) ^ m) * hqRE + (-(3 : Int) * R) * hEm -
      2 ^ 51 * hTp + h3v
  have hP1 : (1 : Int) ≤ 2 ^ m := hdpos
  have hPle : (2 : Int) ^ m ≤ 2 ^ 31 := pow_le_pow_right₀ (by norm_num) hm31
  have hfd_le : 2 ^ m * Int.fdiv v (2 ^ m) ≤ v := by
    have h0 := Int.fmod_nonneg' v hdpos
    rw [Int.fmod_def] at h0
    omega
  have hfd_ge : v < 2 ^ m * Int.fdiv v (2 ^ m) + 2 ^ m := by
    have h0 := Int.fmod_lt_of_pos v hdpos
    rw [Int.fmod_def] at h0
    omega
  have habsv : ((2 : Int) ^ 52) < |v| := by
    have hc : ((2 ^ 52 : Nat) : Int) < (v.natAbs : Int) := by exact_mod_cast habs52
    rw [Int.abs_eq_natAbs]
    push_cast at hc ⊢
    omega
  have h51 : ((2 : Int) ^ 51) = 2251799813685248 := by norm_num
  have h52 : ((2 : Int) ^ 52) = 4503599627370496 := by norm_num
  have h31 : ((2 : Int) ^ 31) = 2147483648 := by norm_num
  rcases lt_trichotomy t 0 with htneg | ht0 | htpos
  · have hvneg : v < 0 := by
      rw [hv]
      exact mul_neg_of_neg_of_pos htneg (by norm_num)
    have hvle : v < -(2 ^ 52) := by
      rcases abs_cases v with ⟨hc, -⟩ | ⟨hc, -⟩ <;> omega
    have hFneg : Int.fdiv v (2 ^ m) < 0 := by
      by_contra hF
      push_neg at hF
      have : (0 : Int) ≤ 2 ^ m * Int.fdiv v (2 ^ m) := mul_nonneg hdpos.le hF
      omega
    have hqle : q ≤ 0 := by
      have hb := rneDiv_between v m
      rw [← hq] at hb
      omega
    have hr2b := tmod_nonpos_bounds q E hqle hEpos
    rw [← hr2] at hr2b
    have hA1 : (-E + 1) * 2 ^ m ≤ A := by
      rw [hA]
      exact mul_le_mul_of_nonneg_right (by omega) hdpos.le
    have hA2 : A ≤ 0 := by
      rw [hA]
      exact mul_nonpos_of_nonpos_of_nonneg hr2b.2 hdpos.le
    have hA1' : (-E + 1) * 2 ^ m = -(2 ^ 51) + 2 ^ m := by
      rw [show ((-E + 1) * 2 ^ m : Int) = -(E * 2 ^ m) + 2 ^ m from by ring, hEm]
    have hpb := tmod_nonpos_bounds (10 * t) 3 (by omega) (by norm_num)
    rw [← hp] at hpb
    rw [hA1'] at hA1
    rw [h51] at key hA1
    rw [h31] at h1 h2 hPle
    have hD : R - T = 0 := by
      set P : Int := 2 ^ m
      omega
    omega
  · exact absurd ht0 ht
  · have hvpos : 0 < v := by
      rw [hv]
      exact mul_pos htpos (by norm_num)
    have hvge : (2 : Int) ^ 52 < v := by
      rcases abs_cases v with ⟨hc, -⟩ | ⟨hc, -⟩ <;> omega
    have hFnonneg : 0 ≤ Int.fdiv v (2 ^ m) := by
      by_contra hF
      push_neg at hF
      have hF1 : Int.fdiv v (2 ^ m) + 1 ≤ 0 := by omega
      have : 2 ^ m * (Int.fdiv v (2 ^ m) + 1) ≤ 0 :=
        mul_nonpos_of_nonneg_of_nonpos hdpos.le hF1
      have hexp : 2 ^ m * (Int.fdiv v (2 ^ m) + 1) =
          2 ^ m * Int.fdiv v (2 ^ m) + 2 ^ m := by ring
      omega
    have hq0 : 0 ≤ q := by
      have hb := rneDiv_between v m
      rw [← hq] at hb
      omega
    have hr2b : 0 ≤ r2 ∧ r2 < E := by
      rw [hr2]
      exact ⟨Int.tmod_nonneg E hq0, Int.tmod_lt_of_pos q hEpos⟩
    have hA1 : 0 ≤ A := by
      rw [hA]
      exact mul_nonneg hr2b.1 hdpos.le
    have hA2 : A ≤ (E - 1) * 2 ^ m := by
      rw [hA]
      exact mul_le_mul_of_nonneg_right (by omega) hdpos.le
    have hA2' : ((E - 1) * 2 ^ m : Int) = 2 ^ 51 - 2 ^ m := by
      rw [show ((E - 1) * 2 ^ m : Int) = E * 2 ^ m - 2 ^ m from by ring, hEm]
    have hpb : 0 ≤ p ∧ p < 3 := by
      rw [hp]
      exact ⟨Int.tmod_nonneg 3 (by omega), Int.tmod_lt_of_pos (10 * t) (by norm_num)⟩
    rw [hA2'] at hA2
    rw [h51] at key hA2
    rw [h31] at h1 h2 hPle
    have hD : R - T = 0 := by
      set P : Int := 2 ^ m
      omega
    omega

/-- C3 counterexample: clock ticks 0 and day count `i32::MAX` (bytes
`[0,0,0,0,255,255,255,127]`) overflow chrono's calendar range, and
`parse_datetime_opt` returns a recoverable *error* — not the successful null
result the claim states. -/
theorem C3_cex_overflow_is_error :
    (⟨[0, 0, 0, 0, 255, 255, 255, 127], .Primary, none, none⟩ :
        Record).parse_datetime_opt = .err "Cannot parse datetime due to overflow"
    ∧ ¬∃ o, (⟨[0, 0, 0, 0, 255, 255, 255, 127], .Primary, none, none⟩ :
        Record).parse_datetime_opt = .ok (none, o) := by
  have h1 : (⟨[0, 0, 0, 0, 255, 255, 255, 127], .Primary, none, none⟩ :
      Record).parse_datetime_opt = .err "Cannot parse datetime due to overflow" := by
    decide
  refine ⟨h1, ?_⟩
  rintro ⟨o, ho⟩
  rw [h1] at ho
  exact POutcome.noConfusion ho

/-- C3 amended: `parse_datetime_opt` reads two little-endian i32 values —
clock ticks then days — from 8 fixed bytes; the tick count is scaled by the
f64 constant 10/3 and truncated toward zero, which equals
`(10·ticks).tdiv 3` exactly; the offset is added to the epoch
1900-01-01 00:00:00 UTC, and when either addition overflows chrono's valid
calendar range the function returns a recoverable error (not a null value). -/
theorem C3_amended_datetime (r : Record) (hnb : r.null_bitmap = none)
    (h8 : 8 ≤ r.fixed_bytes.length) (hbytes : ∀ b ∈ r.fixed_bytes, b < 256) :
    tickToMsF64 (readSigned 4 (r.fixed_bytes.take 8)) =
      (10 * readSigned 4 (r.fixed_bytes.take 8)).tdiv 3
    ∧ (validMs (tickToMsF64 (readSigned 4 (r.fixed_bytes.take 8))) = true →
        validMs (tickToMsF64 (readSigned 4 (r.fixed_bytes.take 8)) +
          readSigned 4 ((r.fixed_bytes.take 8).drop 4) * 86400000) = true →
        r.parse_datetime_opt =
          .ok (some (tickToMsF64 (readSigned 4 (r.fixed_bytes.take 8)) +
              readSigned 4 ((r.fixed_bytes.take 8).drop 4) * 86400000),
            { r with fixed_bytes := r.fixed_bytes.drop 8 }))
    ∧ ((validMs (tickToMsF64 (readSigned 4 (r.fixed_bytes.take 8))) = false ∨
        validMs (tickToMsF64 (readSigned 4 (r.fixed_bytes.take 8)) +
          readSigned 4 ((r.fixed_bytes.take 8).drop 4) * 86400000) = false) →
        r.parse_datetime_opt = .err "Cannot parse datetime due to overflow") := by
  have hpop := popNextNullBit_of_no_bitmap r hnb
  have hpb := parse_bytes_opt_of_pop_false r 8 hpop
  rw [if_pos h8] at hpb
  refine ⟨?_, ?_, ?_⟩
  · have hu : leNat ((r.fixed_bytes.take 8).take 4) < 2 ^ 32 := by
      have hlt := leNat_lt ((r.fixed_bytes.take 8).take 4)
        fun b hb => hbytes b (List.mem_of_mem_take (List.mem_of_mem_take hb))
      have hlen4 : ((r.fixed_bytes.take 8).take 4).length = 4 := by
        simp only [List.take_take, List.length_take]
        omega
      rw [hlen4] at hlt
      have h2564 : (256 : Nat) ^ 4 = 2 ^ 32 := by norm_num
      omega
    obtain ⟨ha, hb⟩ := toSigned_i32_range _ hu
    exact tickToMs_eq_tdiv _ ha hb
  · intro hva hvb
    have hc1 : checkedAddSigned 0 (tickToMsF64 (readSigned 4 (r.fixed_bytes.take 8))) =
        some (tickToMsF64 (readSigned 4 (r.fixed_bytes.take 8))) := by
      simp [checkedAddSigned, hva]
    have hc2 : checkedAddSigned (tickToMsF64 (readSigned 4 (r.fixed_bytes.take 8)))
        (readSigned 4 ((r.fixed_bytes.take 8).drop 4) * 86400000) =
        some (tickToMsF64 (readSigned 4 (r.fixed_bytes.take 8)) +
          readSigned 4 ((r.fixed_bytes.take 8).drop 4) * 86400000) := by
      simp [checkedAddSigned, hvb]
    unfold Record.parse_datetime_opt
    rw [hpb]
    simp only [POutcome.bind]
    rw [hc1]
    simp [hc2]
  · intro hor
    unfold Record.parse_datetime_opt
    rw [hpb]
    simp only [POutcome.bind]
    cases hva : validMs (tickToMsF64 (readSigned 4 (r.fixed_bytes.take 8))) with
    | false =>
      have hc1 : checkedAddSigned 0 (tickToMsF64 (readSigned 4 (r.fixed_bytes.take 8))) =
          none := by simp [checkedAddSigned, hva]
      rw [hc1]
    | true =>
      have hvb : validMs (tickToMsF64 (readSigned 4 (r.fixed_bytes.take 8)) +
          readSigned 4 ((r.fixed_bytes.take 8).drop 4) * 86400000) = false := by
        rcases hor with h | h
        · rw [hva] at h
          exact absurd h (by simp)
        · exact h
      have hc1 : checkedAddSigned 0 (tickToMsF64 (readSigned 4 (r.fixed_bytes.take 8))) =
          some (tickToMsF64 (readSigned 4 (r.fixed_bytes.take 8))) := by
        simp [checkedAddSigned, hva]
      have hc2 : checkedAddSigned (tickToMsF64 (readSigned 4 (r.fixed_bytes.take 8)))
          (readSigned 4 ((r.fixed_bytes.take 8).drop 4) * 86400000) = none := by
        simp [checkedAddSigned, hvb]
      rw [hc1]
      simp [hc2]

/-- Witness for C3 at the record of the library's `parse_datetime` test
(ticks 0, days 38137, i.e. 2004-06-01). -/
theorem C3_witness :
    ((⟨[0, 0, 0, 0, 249, 148, 0, 0], .Primary, none, none⟩ : Record).null_bitmap = none
      ∧ 8 ≤ (⟨[0, 0, 0, 0, 249, 148, 0, 0], .Primary, none, none⟩ :
          Record).fixed_bytes.length
      ∧ ∀ b ∈ (⟨[0, 0, 0, 0, 249, 148, 0, 0], .Primary, none, none⟩ :
          Record).fixed_bytes, b < 256)
    ∧ tickToMsF64 (readSigned 4
        ((⟨[0, 0, 0, 0, 249, 148, 0, 0], .Primary, none, none⟩ :
          Record).fixed_bytes.take 8)) =
      (10 * readSigned 4
        ((⟨[0, 0, 0, 0, 249, 148, 0, 0], .Primary, none, none⟩ :
          Record).fixed_bytes.take 8)).tdiv 3 :=
  ⟨⟨rfl, by decide, by decide⟩,
    (C3_amended_datetime ⟨[0, 0, 0, 0, 249, 148, 0, 0], .Primary, none, none⟩ rfl
      (by decide) (by decide)).1⟩

/-- Witness for C8 at a three-byte buffer whose first end offset (10) exceeds
the remaining bytes, so the produced slice is the whole clipped buffer. -/
theorem C8_witness :
    (⟨[1, 2, 3], [10, 0], some 0⟩ : VariableColumns).next =
      (some [1, 2, 3], ⟨[], [], some 10⟩)
    ∧ ([1, 2, 3] : List Nat).length ≤
        (⟨[1, 2, 3], [10, 0], some 0⟩ : VariableColumns).variable_columns.length
    ∧ (⟨[1, 2, 3], [10, 0], some 0⟩ : VariableColumns).variable_columns.take
        ([1, 2, 3] : List Nat).length = [1, 2, 3] :=
  ⟨by decide, C8_variable_slice_clipped ⟨[1, 2, 3], [10, 0], some 0⟩ [1, 2, 3]
    ⟨[], [], some 10⟩ (by decide)⟩
